import Mathlib

/-!
Verification of the log-parsing and statistics core of `rfid_dashboard_cloud.py`.

The Python source works on `str` values; here file contents are Lean `String`s
and the string primitives the source uses (`str.strip`, `str.split`,
`str.replace`) are modelled by structurally recursive functions on the
underlying character list, so that every definition evaluates inside the
kernel.  Timestamps are modelled by a `DateTime` record of calendar fields;
`datetime.strptime(ts, "%Y%m%d%H%M%S")` is modelled as accepting exactly a
14-digit, calendar-valid string (the inputs relevant to the claims are either
well-formed 14-digit stamps or clearly non-numeric strings).  Real-valued
arithmetic (`total_seconds() / 60`, percentages) is modelled over `ℚ`.
-/

/-! ## String primitives (Python `split` / `strip` / `replace`) -/

/-- Python `s.split(sep)` for a one-character separator: keeps empty pieces,
`"".split(sep) == [""]`. -/
def chSplit (sep : Char) : List Char → List (List Char)
  | [] => [[]]
  | c :: cs =>
    match chSplit sep cs with
    | [] => [[]]
    | cur :: rest => if c = sep then [] :: cur :: rest else (c :: cur) :: rest

def strSplit (s : String) (sep : Char) : List String :=
  (chSplit sep s.data).map String.mk

/-- The whitespace characters stripped by Python `str.strip()` (the ones that
can occur in this pipeline's CSV inputs). -/
def isWsp (c : Char) : Bool :=
  c = ' ' || c = '\t' || c = '\n' || c = '\r'

def chTrim (cs : List Char) : List Char :=
  ((cs.dropWhile isWsp).reverse.dropWhile isWsp).reverse

/-- Python `s.strip()`. -/
def strTrim (s : String) : String := String.mk (chTrim s.data)

/-! ## Timestamps

`datetime.strptime(timestamp, "%Y%m%d%H%M%S")` and
`dt.strftime("%Y/%m/%d %H:%M:%S")` from lines 49-50 of the source. -/

structure DateTime where
  year : Nat
  month : Nat
  day : Nat
  hour : Nat
  minute : Nat
  second : Nat
deriving DecidableEq, Repr, Inhabited

def isLeapYear (y : Nat) : Bool :=
  (y % 4 == 0 && y % 100 != 0) || (y % 400 == 0)

def daysInMonth (y m : Nat) : Nat :=
  if m = 2 then (if isLeapYear y then 29 else 28)
  else if m = 4 ∨ m = 6 ∨ m = 9 ∨ m = 11 then 30
  else 31

/-- The validity conditions `datetime` enforces on its constructor arguments. -/
def validDateTime (d : DateTime) : Bool :=
  decide (1 ≤ d.year ∧ d.year ≤ 9999 ∧ 1 ≤ d.month ∧ d.month ≤ 12 ∧
    1 ≤ d.day ∧ d.day ≤ daysInMonth d.year d.month ∧
    d.hour ≤ 23 ∧ d.minute ≤ 59 ∧ d.second ≤ 59)

def digitsToNat (cs : List Char) : Nat :=
  cs.foldl (fun acc c => acc * 10 + (c.toNat - 48)) 0

/-- `datetime.strptime(s, "%Y%m%d%H%M%S")`: a 14-digit, calendar-valid
timestamp parses; anything else raises (modelled as `none`). -/
def parseTimestamp (s : String) : Option DateTime :=
  let cs := s.data
  if cs.length = 14 ∧ cs.all Char.isDigit then
    let d : DateTime :=
      { year := digitsToNat (cs.take 4)
        month := digitsToNat ((cs.drop 4).take 2)
        day := digitsToNat ((cs.drop 6).take 2)
        hour := digitsToNat ((cs.drop 8).take 2)
        minute := digitsToNat ((cs.drop 10).take 2)
        second := digitsToNat ((cs.drop 12).take 2) }
    if validDateTime d then some d else none
  else none

def digitChar (n : Nat) : Char := Char.ofNat (48 + n)

def pad2 (n : Nat) : List Char := [digitChar (n / 10 % 10), digitChar (n % 10)]

def pad4 (n : Nat) : List Char :=
  [digitChar (n / 1000 % 10), digitChar (n / 100 % 10),
   digitChar (n / 10 % 10), digitChar (n % 10)]

/-- `dt.strftime("%Y/%m/%d %H:%M:%S")`. -/
def formatDateTime (d : DateTime) : String :=
  String.mk (pad4 d.year ++ ['/'] ++ pad2 d.month ++ ['/'] ++ pad2 d.day ++
    [' '] ++ pad2 d.hour ++ [':'] ++ pad2 d.minute ++ [':'] ++ pad2 d.second)

/-- Absolute time of a `DateTime` in seconds (proleptic Gregorian count, as
`datetime` subtraction computes `total_seconds()` from).  Only differences of
`toSeconds` values are used. -/
def daysBeforeYear (y : Nat) : Nat :=
  365 * (y - 1) + (y - 1) / 4 - (y - 1) / 100 + (y - 1) / 400

def daysBeforeMonth (y m : Nat) : Nat :=
  (List.range (m - 1)).foldl (fun acc i => acc + daysInMonth y (i + 1)) 0

def toSeconds (d : DateTime) : Nat :=
  ((daysBeforeYear d.year + daysBeforeMonth d.year d.month + (d.day - 1)) * 24
      + d.hour) * 3600
    + d.minute * 60 + d.second

/-! ## Data model -/

structure InputFile where
  name : String
  content : String
deriving DecidableEq, Repr, Inhabited

/-- One element of the per-tag history lists built at lines 66-71. -/
structure TagHistoryEntry where
  timestamp : String
  datetime : DateTime
  sequence : String
  filename : String
deriving DecidableEq, Repr, Inhabited

/-- One element of `all_data` (lines 73-81 of the source). -/
structure Event where
  filename : String
  timestamp : String
  datetime : DateTime
  sequence : String
  tag_count : Nat
  tag_ids : List String
  raw_timestamp : String
deriving DecidableEq, Repr, Inhabited

/-- `tag_histories` is a Python dict in insertion order: an association list
keyed by tag id. -/
def TagHistories := List (String × List TagHistoryEntry)
deriving DecidableEq, Inhabited

def histLookup (h : TagHistories) (k : String) : Option (List TagHistoryEntry) :=
  match h with
  | [] => none
  | (k1, l) :: rest => if k1 = k then some l else histLookup rest k

/-- Lines 64-66: `if tag_id not in tag_histories: tag_histories[tag_id] = []`
followed by `tag_histories[tag_id].append(entry)`. -/
def histAdd (h : TagHistories) (k : String) (ent : TagHistoryEntry) : TagHistories :=
  match h with
  | [] => [(k, [ent])]
  | (k1, l) :: rest =>
    if k1 = k then (k1, l ++ [ent]) :: rest else (k1, l) :: histAdd rest k ent

/-- Lines 64-65 alone: create the empty history list for a new key.  This is
the only effect that survives when the subsequent `append` raises. -/
def histEnsure (h : TagHistories) (k : String) : TagHistories :=
  match h with
  | [] => [(k, [])]
  | (k1, l) :: rest =>
    if k1 = k then (k1, l) :: rest else (k1, l) :: histEnsure rest k

/-! ## Record parsing (`parse_uploaded_files`, lines 11-87) -/

/-- Lines 56-61: a data row yields a tag exactly when it is non-blank, has
more than 4 comma-separated columns and a non-empty fifth column; the tag id
is that column with every carriage return removed. -/
def rowTag (row : String) : Option String :=
  if strTrim row ≠ "" then
    let columns := strSplit row ','
    if 4 < columns.length ∧ columns.getD 4 "" ≠ "" then
      some (String.mk ((columns.getD 4 "").data.filter (fun c => c ≠ '\r')))
    else none
  else none

/-- The row loop of lines 56-71: accumulates `tag_ids` in row order and
appends one matching history entry per tag occurrence. -/
def processRows (fm : String) (dt : DateTime) (sq fn : String) :
    List String → List String → TagHistories → List String × TagHistories
  | [], tags, h => (tags, h)
  | row :: rest, tags, h =>
    match rowTag row with
    | some tag_id =>
        processRows fm dt sq fn rest (tags ++ [tag_id])
          (histAdd h tag_id ⟨fm, dt, sq, fn⟩)
    | none => processRows fm dt sq fn rest tags h

/-- The first tag id the row loop would touch: when the loop raises at its
first history append, this key has already been given an empty list. -/
def firstRowTag (rows : List String) : Option String :=
  rows.findSome? rowTag

/-- The loop state of `parse_uploaded_files`.  `lastDt` models the Python
local variable `dt`: it is assigned only on a successful `strptime` (line 49)
and survives from one loop iteration to the next; while it is unassigned,
reading it raises `UnboundLocalError`. -/
structure ParseState where
  all_data : List Event
  tag_histories : TagHistories
  warnings : List String
  lastDt : Option DateTime
deriving DecidableEq, Inhabited

/-- The body of the `for file_info in file_data` loop (lines 29-85), one file
at a time.  Branches:
* blank content (line 34) — skipped silently;
* fewer than 4 header fields (line 40) — skipped silently, no warning;
* parsable timestamp — event appended, `dt` updated;
* unparsable timestamp with `dt` bound from an earlier file — the *stale*
  `dt` is attached to the event and its history entries (lines 68, 76);
* unparsable timestamp with `dt` still unbound — evaluating `dt` raises
  `UnboundLocalError`, which the blanket `except` of line 83 turns into a
  warning naming the file; the first tag row may already have created an
  empty history list before the raise. -/
def processFile (st : ParseState) (f : InputFile) : ParseState :=
  let filename := f.name
  let content := strTrim f.content
  if content = "" then st
  else
    let lines := strSplit content '\n'
    let headers := strSplit (lines.headD "") ','
    if headers.length < 4 then st
    else
      let timestamp := headers.getD 0 ""
      let sequence := headers.getD 3 ""
      let data_rows := lines.drop 1
      match parseTimestamp timestamp with
      | some dtv =>
        let formatted_time := formatDateTime dtv
        let pr := processRows formatted_time dtv sequence filename data_rows [] st.tag_histories
        { all_data := st.all_data ++
            [⟨filename, formatted_time, dtv, sequence, pr.1.length, pr.1, timestamp⟩]
          tag_histories := pr.2
          warnings := st.warnings
          lastDt := some dtv }
      | none =>
        match st.lastDt with
        | some dtv =>
          let formatted_time := timestamp
          let pr := processRows formatted_time dtv sequence filename data_rows [] st.tag_histories
          { all_data := st.all_data ++
              [⟨filename, formatted_time, dtv, sequence, pr.1.length, pr.1, timestamp⟩]
            tag_histories := pr.2
            warnings := st.warnings
            lastDt := some dtv }
        | none =>
          { all_data := st.all_data
            tag_histories :=
              match firstRowTag data_rows with
              | some t => histEnsure st.tag_histories t
              | none => st.tag_histories
            warnings := st.warnings ++ [filename]
            lastDt := none }

/-- Lexicographic order on code-point sequences: Python string comparison,
as used by `file_data.sort(key=lambda x: x['name'])` at line 27. -/
def lexLe : List Nat → List Nat → Bool
  | [], _ => true
  | _ :: _, [] => false
  | m :: ms, n :: ns =>
    if m < n then true
    else if n < m then false
    else lexLe ms ns

def lexLt : List Nat → List Nat → Bool
  | [], [] => false
  | [], _ :: _ => true
  | _ :: _, [] => false
  | m :: ms, n :: ns =>
    if m < n then true
    else if n < m then false
    else lexLt ms ns

/-- The sort key of line 27: the filename, compared as a string. -/
def nameKey (f : InputFile) : List Nat := f.name.data.map Char.toNat

def nameLe (a b : InputFile) : Prop := lexLe (nameKey a) (nameKey b) = true

def nameLt (a b : InputFile) : Prop := lexLt (nameKey a) (nameKey b) = true

instance : DecidableRel nameLe := fun _ _ => instDecidableEqBool _ _

/-- Line 27: `file_data.sort(key=lambda x: x['name'])`; Python `list.sort` is
a stable ascending sort, modelled by stable insertion sort. -/
def sortFilesByName (files : List InputFile) : List InputFile :=
  List.insertionSort nameLe files

/-- `parse_uploaded_files` (lines 11-87): returns
`(all_data, tag_histories, warnings)`; the warnings list records, in order,
the filenames reported through `st.warning` at line 84. -/
def parse_uploaded_files (files : List InputFile) :
    List Event × TagHistories × List String :=
  let st := (sortFilesByName files).foldl processFile ⟨[], [], [], none⟩
  (st.all_data, st.tag_histories, st.warnings)

/-! ## Statistics engine (`calculate_sequence_stats`, lines 127-161) -/

structure StateStats where
  count : Nat
  percentage : ℚ
  total_duration : ℚ
  avg_duration : ℚ
  time_percentage : ℚ
deriving DecidableEq, Repr, Inhabited

/-- `(b - a).total_seconds() / 60` for two parsed datetimes. -/
def durationMinutes (a b : DateTime) : ℚ :=
  ((toSeconds b : ℚ) - (toSeconds a : ℚ)) / 60

/-- The order `df.sort_values('datetime')` sorts by at line 133. -/
def dtLe (a b : Event) : Prop := toSeconds a.datetime ≤ toSeconds b.datetime

instance : DecidableRel dtLe := fun _ _ => Nat.decLe _ _

instance : IsTotal Event dtLe := ⟨fun _ _ => Nat.le_total _ _⟩

instance : IsTrans Event dtLe := ⟨fun _ _ _ => Nat.le_trans⟩

/-- Line 133: `df = df.sort_values('datetime')`. -/
def sortByDatetime (es : List Event) : List Event :=
  List.insertionSort dtLe es

/-- Line 138-139: `len(df[df['sequence'] == seq])`. -/
def countFor (df : List Event) (sq : String) : Nat :=
  (df.filter (fun e => e.sequence = sq)).length

/-- Lines 142-147: the duration loop, guarded by `count > 0`, over all row
indices, adding the gap to the next row for every matching index that is not
the last row. -/
def totalDurationFor (df : List Event) (sq : String) : ℚ :=
  if 0 < countFor df sq then
    (List.range df.length).foldl
      (fun acc i =>
        if (df.getD i default).sequence = sq ∧ i < df.length - 1 then
          acc + durationMinutes (df.getD i default).datetime
              (df.getD (i + 1) default).datetime
        else acc) 0
  else 0

/-- Line 151: `count / len(df) * 100 if len(df) > 0 else 0`. -/
def percentageFor (df : List Event) (sq : String) : ℚ :=
  if 0 < df.length then (countFor df sq : ℚ) / (df.length : ℚ) * 100 else 0

/-- Line 153: `total_duration / count if count > 0 else 0`. -/
def avgDurationFor (df : List Event) (sq : String) : ℚ :=
  if 0 < countFor df sq then totalDurationFor df sq / (countFor df sq : ℚ) else 0

/-- The fixed state set iterated over at line 137. -/
def seqStates : List String := ["00", "01", "02", "03", "04"]

/-- Line 157: `sum(stat['total_duration'] for stat in stats.values())`. -/
def totalTime (df : List Event) : ℚ :=
  (seqStates.map (totalDurationFor df)).sum

/-- Line 159: `total_duration / total_time * 100 if total_time > 0 else 0`. -/
def timePercentageFor (df : List Event) (sq : String) : ℚ :=
  if 0 < totalTime df then totalDurationFor df sq / totalTime df * 100 else 0

/-- `calculate_sequence_stats` (lines 127-161): empty input returns the empty
dict; otherwise one `StateStats` per state code, computed on the
datetime-sorted frame.  The dict is modelled as an association list in
insertion order `"00" … "04"`. -/
def calculate_sequence_stats (data : List Event) : List (String × StateStats) :=
  if data = [] then []
  else
    let df := sortByDatetime data
    seqStates.map fun sq =>
      (sq, ⟨countFor df sq, percentageFor df sq, totalDurationFor df sq,
            avgDurationFor df sq, timePercentageFor df sq⟩)

/-- Dict access `stats[seq]`, with a zero record for a missing key. -/
def getStat (m : List (String × StateStats)) (sq : String) : StateStats :=
  match m with
  | [] => ⟨0, 0, 0, 0, 0⟩
  | (k, v) :: rest => if k = sq then v else getStat rest sq

/-- `ent` is among the recorded history entries of tag `k`. -/
def entMem (h : TagHistories) (k : String) (ent : TagHistoryEntry) : Prop :=
  ent ∈ (histLookup h k).getD []

/-- The loop invariant behind P2: every recorded event's tags have a matching
entry in the current history index. -/
def stInv (st : ParseState) : Prop :=
  ∀ e ∈ st.all_data, ∀ t ∈ e.tag_ids,
    ∃ ent, entMem st.tag_histories t ent ∧
      ent.timestamp = e.timestamp ∧ ent.sequence = e.sequence ∧
      ent.filename = e.filename

/-! ## Concrete inputs used in the claim-level theorems -/

/-- Filename order (a, b) inverts timestamp order (08:01, 08:00). -/
def filesC2 : List InputFile :=
  [⟨"a.csv", "20250218080100,x,y,01"⟩, ⟨"b.csv", "20250218080000,x,y,00"⟩]

def evC2a : Event :=
  ⟨"a.csv", "2025/02/18 08:01:00", ⟨2025, 2, 18, 8, 1, 0⟩, "01", 0, [],
    "20250218080100"⟩

def evC2b : Event :=
  ⟨"b.csv", "2025/02/18 08:00:00", ⟨2025, 2, 18, 8, 0, 0⟩, "00", 0, [],
    "20250218080000"⟩

/-- An event whose sequence state lies outside the fixed state set. -/
def evC4 : Event :=
  ⟨"f.csv", "2025/02/18 08:00:00", ⟨2025, 2, 18, 8, 0, 0⟩, "99", 0, [],
    "20250218080000"⟩

def evC4w : Event :=
  ⟨"g.csv", "2025/02/18 08:00:00", ⟨2025, 2, 18, 8, 0, 0⟩, "00", 0, [],
    "20250218080000"⟩

def dataC5 : List Event :=
  [⟨"f1.csv", "2025/02/18 08:00:00", ⟨2025, 2, 18, 8, 0, 0⟩, "00", 0, [],
     "20250218080000"⟩,
   ⟨"f2.csv", "2025/02/18 08:02:00", ⟨2025, 2, 18, 8, 2, 0⟩, "03", 0, [],
     "20250218080200"⟩]

def filesC6 : List InputFile :=
  [⟨"f1.csv",
    "20250218080534,0001,6C,02,hdr\n20250218080535,0001,6C,02,TAGA"⟩]

def evC6 : Event :=
  ⟨"f1.csv", "2025/02/18 08:05:34", ⟨2025, 2, 18, 8, 5, 34⟩, "02", 1, ["TAGA"],
    "20250218080534"⟩

def dataC10 : List Event :=
  [⟨"h1.csv", "2025/02/18 09:00:00", ⟨2025, 2, 18, 9, 0, 0⟩, "01", 0, [],
     "20250218090000"⟩,
   ⟨"h2.csv", "2025/02/18 09:03:00", ⟨2025, 2, 18, 9, 3, 0⟩, "04", 0, [],
     "20250218090300"⟩]

/-! ## Lemmas on the lexicographic filename order -/

theorem lexLe_total : ∀ ks ls, lexLe ks ls = true ∨ lexLe ls ks = true := by
  intro ks
  induction ks with
  | nil => intro ls; left; rfl
  | cons m ms ih =>
    intro ls
    cases ls with
    | nil => right; rfl
    | cons n ns =>
      by_cases h1 : m < n
      · left; simp [lexLe, h1]
      · by_cases h2 : n < m
        · right; simp [lexLe, h1, h2]
        · rcases ih ns with h | h
          · left; simp [lexLe, h1, h2, h]
          · right; simp [lexLe, h1, h2, h]

theorem lexLe_trans :
    ∀ ks ls ms, lexLe ks ls = true → lexLe ls ms = true → lexLe ks ms = true := by
  intro ks
  induction ks with
  | nil => intro ls ms _ _; rfl
  | cons a as ih =>
    intro ls ms hab hbc
    cases ls with
    | nil => simp [lexLe] at hab
    | cons b bs =>
      cases ms with
      | nil => simp [lexLe] at hbc
      | cons c cs =>
        simp only [lexLe] at hab hbc ⊢
        by_cases h1 : a < b
        · by_cases h2 : b < c
          · simp [show a < c by omega]
          · rw [if_neg h2] at hbc
            by_cases h3 : c < b
            · simp [h3] at hbc
            · simp [show a < c by omega]
        · rw [if_neg h1] at hab
          by_cases h4 : b < a
          · simp [h4] at hab
          · rw [if_neg h4] at hab
            by_cases h2 : b < c
            · simp [show a < c by omega]
            · rw [if_neg h2] at hbc
              by_cases h3 : c < b
              · simp [h3] at hbc
              · rw [if_neg h3] at hbc
                have hac : ¬ a < c := by omega
                have hca : ¬ c < a := by omega
                simp [hac, hca, ih bs cs hab hbc]

theorem lexLt_asymm :
    ∀ ks ls, lexLt ks ls = true → lexLt ls ks = true → False := by
  intro ks
  induction ks with
  | nil =>
    intro ls h1 h2
    cases ls with
    | nil => simp [lexLt] at h1
    | cons n ns => simp [lexLt] at h2
  | cons m ms ih =>
    intro ls h1 h2
    cases ls with
    | nil => simp [lexLt] at h1
    | cons n ns =>
      simp only [lexLt] at h1 h2
      by_cases hm : m < n
      · simp [hm, show ¬ n < m by omega] at h2
      · rw [if_neg hm] at h1
        by_cases hn : n < m
        · simp [hn] at h1
        · rw [if_neg hn] at h1
          rw [if_neg hn, if_neg hm] at h2
          exact ih ns h1 h2

theorem lexLe_ne_lt :
    ∀ ks ls, lexLe ks ls = true → ks ≠ ls → lexLt ks ls = true := by
  intro ks
  induction ks with
  | nil =>
    intro ls _ hne
    cases ls with
    | nil => exact absurd rfl hne
    | cons n ns => rfl
  | cons m ms ih =>
    intro ls hle hne
    cases ls with
    | nil => simp [lexLe] at hle
    | cons n ns =>
      simp only [lexLe] at hle
      simp only [lexLt]
      by_cases h1 : m < n
      · simp [h1]
      · rw [if_neg h1] at hle
        by_cases h2 : n < m
        · simp [h2] at hle
        · rw [if_neg h2] at hle
          have hmn : m = n := by omega
          subst hmn
          have hns : ms ≠ ns := fun h => hne (by rw [h])
          simp [h1, ih ns hle hns]

theorem char_toNat_injective : Function.Injective Char.toNat :=
  fun _ _ h => Char.ext (UInt32.ext h)

theorem nameKey_inj {a b : InputFile} (h : nameKey a = nameKey b) :
    a.name = b.name := by
  have hdata : a.name.data = b.name.data :=
    List.map_injective_iff.mpr char_toNat_injective h
  exact congrArg String.mk hdata

instance : IsTotal InputFile nameLe :=
  ⟨fun a b => lexLe_total (nameKey a) (nameKey b)⟩

instance : IsTrans InputFile nameLe :=
  ⟨fun a b c hab hbc => lexLe_trans (nameKey a) (nameKey b) (nameKey c) hab hbc⟩

instance : IsAntisymm InputFile nameLt :=
  ⟨fun _ _ hab hba => absurd hab (fun h => lexLt_asymm _ _ h hba)⟩

/-- With pairwise-distinct filenames there is exactly one name-sorted
arrangement, so the line-27 sort erases the supplied order. -/
theorem sortFilesByName_eq_of_perm (l₁ l₂ : List InputFile) (hp : l₁.Perm l₂)
    (hn : (l₁.map InputFile.name).Nodup) :
    sortFilesByName l₁ = sortFilesByName l₂ := by
  have hperm : (sortFilesByName l₁).Perm (sortFilesByName l₂) :=
    ((List.perm_insertionSort nameLe l₁).trans hp).trans
      (List.perm_insertionSort nameLe l₂).symm
  have hsorted₁ : List.Sorted nameLe (sortFilesByName l₁) :=
    List.sorted_insertionSort nameLe l₁
  have hsorted₂ : List.Sorted nameLe (sortFilesByName l₂) :=
    List.sorted_insertionSort nameLe l₂
  have hne₁ : (sortFilesByName l₁).Pairwise (fun a b => a.name ≠ b.name) := by
    have : ((sortFilesByName l₁).map InputFile.name).Nodup :=
      (((List.perm_insertionSort nameLe l₁).map InputFile.name).nodup_iff).mpr hn
    exact (List.pairwise_map.mp this)
  have hne₂ : (sortFilesByName l₂).Pairwise (fun a b => a.name ≠ b.name) := by
    have : ((sortFilesByName l₂).map InputFile.name).Nodup :=
      (((List.perm_insertionSort nameLe l₂).map InputFile.name).nodup_iff).mpr
        ((hp.map InputFile.name).nodup_iff.mp hn)
    exact (List.pairwise_map.mp this)
  have strict : ∀ a b : InputFile, nameLe a b → a.name ≠ b.name → nameLt a b := by
    intro a b hle hne
    exact lexLe_ne_lt _ _ hle (fun hk => hne (nameKey_inj hk))
  have hstrict₁ : List.Sorted nameLt (sortFilesByName l₁) :=
    (hsorted₁.and hne₁).imp (fun h => strict _ _ h.1 h.2)
  have hstrict₂ : List.Sorted nameLt (sortFilesByName l₂) :=
    (hsorted₂.and hne₂).imp (fun h => strict _ _ h.1 h.2)
  exact List.eq_of_perm_of_sorted hperm hstrict₁ hstrict₂

/-! ## Lemmas on the statistics engine -/

theorem foldl_ite_add (p : ℕ → Prop) [DecidablePred p] (g : ℕ → ℚ) :
    ∀ (n : ℕ) (acc : ℚ),
      (List.range n).foldl (fun a i => if p i then a + g i else a) acc
        = acc + ∑ i ∈ Finset.range n, ite (p i) (g i) 0 := by
  intro n
  induction n with
  | zero => intro acc; simp
  | succ m ih =>
    intro acc
    rw [List.range_succ, List.foldl_append, ih acc, Finset.sum_range_succ]
    by_cases hp : p m
    · simp only [List.foldl_cons, List.foldl_nil, if_pos hp]
      ring
    · simp only [List.foldl_cons, List.foldl_nil, if_neg hp]
      ring

/-- The duration loop of lines 142-147 is the sum, over every index except
the last, of the gap to the next row when the row's state matches; the
`count > 0` guard is redundant. -/
theorem totalDurationFor_eq_sum (df : List Event) (sq : String) :
    totalDurationFor df sq
      = ∑ i ∈ Finset.range (df.length - 1),
          ite ((df.getD i default).sequence = sq)
            (durationMinutes (df.getD i default).datetime
              (df.getD (i + 1) default).datetime) 0 := by
  by_cases hc : 0 < countFor df sq
  · rw [totalDurationFor, if_pos hc,
      foldl_ite_add
        (fun i => (df.getD i default).sequence = sq ∧ i < df.length - 1)
        (fun i => durationMinutes (df.getD i default).datetime
          (df.getD (i + 1) default).datetime)
        df.length 0, zero_add]
    rw [← Finset.sum_subset (Finset.range_subset.mpr (Nat.sub_le df.length 1))]
    · exact Finset.sum_congr rfl (fun i hi => by
        have hi1 : i < df.length - 1 := Finset.mem_range.mp hi
        by_cases hA : (df.getD i default).sequence = sq
        · rw [if_pos ⟨hA, hi1⟩, if_pos hA]
        · rw [if_neg (fun hand => hA hand.1), if_neg hA])
    · intro i _ hni
      have hlt : ¬ i < df.length - 1 := fun hlt => hni (Finset.mem_range.mpr hlt)
      exact if_neg (fun hand => hlt hand.2)
  · rw [totalDurationFor, if_neg hc]
    symm
    apply Finset.sum_eq_zero
    intro i hi
    have hi1 : i < df.length - 1 := Finset.mem_range.mp hi
    have hmem : df.getD i default ∈ df := by
      rw [List.getD_eq_getElem df default (by omega)]
      exact List.getElem_mem _
    have hseq : ¬ (df.getD i default).sequence = sq := by
      intro heq
      have hin : df.getD i default ∈ df.filter (fun e => e.sequence = sq) :=
        List.mem_filter.mpr ⟨hmem, decide_eq_true heq⟩
      have hfil : df.filter (fun e => e.sequence = sq) ≠ [] :=
        fun hnil => by simp [hnil] at hin
      exact hc (List.length_pos.mpr hfil)
    exact if_neg hseq

theorem seqStates_nodup : seqStates.Nodup := by decide

theorem getStat_calc (data : List Event) (hne : data ≠ []) (sq : String)
    (hs : sq ∈ seqStates) :
    getStat (calculate_sequence_stats data) sq
      = ⟨countFor (sortByDatetime data) sq, percentageFor (sortByDatetime data) sq,
         totalDurationFor (sortByDatetime data) sq,
         avgDurationFor (sortByDatetime data) sq,
         timePercentageFor (sortByDatetime data) sq⟩ := by
  rw [calculate_sequence_stats, if_neg hne]
  simp only [seqStates] at hs
  fin_cases hs <;> rfl

theorem getStat_calc_notmem (data : List Event) (sq : String)
    (hs : sq ∉ seqStates) :
    getStat (calculate_sequence_stats data) sq = ⟨0, 0, 0, 0, 0⟩ := by
  have h0 : ¬ ("00" = sq) := fun h => hs (by rw [← h]; simp [seqStates])
  have h1 : ¬ ("01" = sq) := fun h => hs (by rw [← h]; simp [seqStates])
  have h2 : ¬ ("02" = sq) := fun h => hs (by rw [← h]; simp [seqStates])
  have h3 : ¬ ("03" = sq) := fun h => hs (by rw [← h]; simp [seqStates])
  have h4 : ¬ ("04" = sq) := fun h => hs (by rw [← h]; simp [seqStates])
  rw [calculate_sequence_stats]
  by_cases hne : data = []
  · rw [if_pos hne]; rfl
  · rw [if_neg hne]
    simp [getStat, seqStates, h0, h1, h2, h3, h4]

theorem sum_map_ite_eq {M : Type} [AddCommMonoid M] :
    ∀ (l : List String), l.Nodup → ∀ q : String, q ∈ l → ∀ x : M,
      (l.map (fun s => ite (q = s) x 0)).sum = x := by
  intro l
  induction l with
  | nil => intro _ q hq; cases hq
  | cons a t ih =>
    intro hn q hq x
    rcases List.mem_cons.mp hq with rfl | hmem
    · simp only [List.map_cons, List.sum_cons, if_pos rfl]
      have hz : (t.map (fun s => ite (q = s) x 0)).sum = 0 := by
        apply List.sum_eq_zero
        intro y hy
        obtain ⟨s, hs, hsy⟩ := List.mem_map.mp hy
        rw [← hsy]
        exact if_neg (fun h => (List.nodup_cons.mp hn).1 (by rw [h]; exact hs))
      rw [hz, add_zero]
      simp
    · have ha : ¬ (q = a) :=
        fun h => (List.nodup_cons.mp hn).1 (by rw [← h]; exact hmem)
      simp only [List.map_cons, List.sum_cons, if_neg ha]
      rw [ih (List.nodup_cons.mp hn).2 q hmem x, zero_add]

theorem list_sum_map_add {α M : Type} [AddCommMonoid M] (l : List α)
    (f g : α → M) :
    (l.map (fun x => f x + g x)).sum = (l.map f).sum + (l.map g).sum := by
  induction l with
  | nil => simp
  | cons a t ih =>
    simp only [List.map_cons, List.sum_cons, ih]
    rw [add_add_add_comm]

theorem list_map_sum_comm {M : Type} [AddCommMonoid M] (l : List String)
    (s : Finset ℕ) (F : String → ℕ → M) :
    (l.map (fun q => ∑ i ∈ s, F q i)).sum
      = ∑ i ∈ s, (l.map (fun q => F q i)).sum := by
  induction l with
  | nil => simp
  | cons a t ih =>
    simp only [List.map_cons, List.sum_cons, ih]
    rw [← Finset.sum_add_distrib]

/-- When every event's state lies in the fixed state set, the five per-state
counts partition the frame. -/
theorem sum_countFor_nat :
    ∀ df : List Event, (∀ e ∈ df, e.sequence ∈ seqStates) →
      (seqStates.map (fun sq => countFor df sq)).sum = df.length := by
  intro df
  induction df with
  | nil => intro _; simp [countFor, seqStates]
  | cons e t ih =>
    intro h
    have hcons : ∀ sq, countFor (e :: t) sq
        = (ite (e.sequence = sq) 1 0) + countFor t sq := by
      intro sq
      rw [countFor, List.filter_cons]
      by_cases hh : e.sequence = sq
      · simp [hh, countFor, Nat.add_comm]
      · simp [hh, countFor]
    simp only [hcons]
    rw [list_sum_map_add seqStates (fun sq => ite (e.sequence = sq) 1 0)
      (fun sq => countFor t sq)]
    rw [ih (fun x hx => h x (List.mem_cons_of_mem e hx)),
      sum_map_ite_eq seqStates seqStates_nodup e.sequence
        (h e (List.mem_cons_self e t)) 1]
    simp [Nat.add_comm]

theorem sorted_sortByDatetime (data : List Event) :
    List.Sorted dtLe (sortByDatetime data) :=
  List.sorted_insertionSort dtLe data

theorem perm_sortByDatetime (data : List Event) :
    (sortByDatetime data).Perm data :=
  List.perm_insertionSort dtLe data

theorem sorted_adjacent (df : List Event) (hs : List.Sorted dtLe df) (i : ℕ)
    (hi : i + 1 < df.length) :
    toSeconds (df.getD i default).datetime
      ≤ toSeconds (df.getD (i + 1) default).datetime := by
  have h1 : i < df.length := Nat.lt_of_succ_lt hi
  rw [List.getD_eq_getElem df default h1, List.getD_eq_getElem df default hi]
  have h := List.pairwise_iff_get.mp hs ⟨i, h1⟩ ⟨i + 1, hi⟩
    (by simp [Fin.mk_lt_mk])
  simpa [dtLe, List.get_eq_getElem] using h

/-! ## Lemmas on the tag-history index -/

theorem entMem_histAdd (h : TagHistories) (k : String) (ent : TagHistoryEntry) :
    entMem (histAdd h k ent) k ent := by
  induction h with
  | nil => simp [entMem, histAdd, histLookup]
  | cons p rest ih =>
    obtain ⟨k1, l⟩ := p
    by_cases hk : k1 = k
    · simp [entMem, histAdd, histLookup, hk]
    · simp only [entMem, histAdd, histLookup, if_neg hk]
      exact ih

theorem entMem_histAdd_mono (h : TagHistories) (k2 : String)
    (ent2 : TagHistoryEntry) (k : String) (ent : TagHistoryEntry)
    (hm : entMem h k ent) : entMem (histAdd h k2 ent2) k ent := by
  induction h with
  | nil => simp [entMem, histLookup] at hm
  | cons p rest ih =>
    obtain ⟨k1, l⟩ := p
    by_cases h2 : k1 = k2
    · by_cases hk : k1 = k
      · simp only [entMem, histAdd, histLookup, if_pos h2, if_pos hk,
          Option.getD_some] at hm ⊢
        exact List.mem_append_left _ hm
      · simp only [entMem, histAdd, histLookup, if_pos h2, if_neg hk] at hm ⊢
        exact hm
    · by_cases hk : k1 = k
      · simp only [entMem, histAdd, histLookup, if_neg h2, if_pos hk,
          Option.getD_some] at hm ⊢
        exact hm
      · simp only [entMem, histAdd, histLookup, if_neg h2, if_neg hk] at hm ⊢
        exact ih hm

theorem entMem_histEnsure_mono (h : TagHistories) (k2 : String) (k : String)
    (ent : TagHistoryEntry) (hm : entMem h k ent) :
    entMem (histEnsure h k2) k ent := by
  induction h with
  | nil => simp [entMem, histLookup] at hm
  | cons p rest ih =>
    obtain ⟨k1, l⟩ := p
    by_cases h2 : k1 = k2
    · by_cases hk : k1 = k
      · simp only [entMem, histEnsure, histLookup, if_pos h2, if_pos hk] at hm ⊢
        exact hm
      · simp only [entMem, histEnsure, histLookup, if_pos h2, if_neg hk] at hm ⊢
        exact hm
    · by_cases hk : k1 = k
      · simp only [entMem, histEnsure, histLookup, if_neg h2, if_pos hk] at hm ⊢
        exact hm
      · simp only [entMem, histEnsure, histLookup, if_neg h2, if_neg hk] at hm ⊢
        exact ih hm

theorem processRows_mono (fm : String) (dt : DateTime) (sq fn : String) :
    ∀ (rows tags : List String) (h : TagHistories) (k : String)
      (ent : TagHistoryEntry), entMem h k ent →
      entMem (processRows fm dt sq fn rows tags h).2 k ent := by
  intro rows
  induction rows with
  | nil => intro tags h k ent hm; exact hm
  | cons row rest ih =>
    intro tags h k ent hm
    simp only [processRows]
    cases hr : rowTag row with
    | some tid => exact ih _ _ _ _ (entMem_histAdd_mono _ _ _ _ _ hm)
    | none => exact ih _ _ _ _ hm

/-- Every tag id accumulated by the row loop ends up with a history entry
carrying the event's formatted timestamp, sequence state and filename. -/
theorem processRows_spec (fm : String) (dt : DateTime) (sq fn : String) :
    ∀ (rows tags : List String) (h : TagHistories),
      (∀ t ∈ tags, ∃ ent, entMem h t ent ∧
        ent.timestamp = fm ∧ ent.sequence = sq ∧ ent.filename = fn) →
      ∀ t ∈ (processRows fm dt sq fn rows tags h).1,
        ∃ ent, entMem (processRows fm dt sq fn rows tags h).2 t ent ∧
          ent.timestamp = fm ∧ ent.sequence = sq ∧ ent.filename = fn := by
  intro rows
  induction rows with
  | nil => intro tags h hinv t ht; exact hinv t ht
  | cons row rest ih =>
    intro tags h hinv
    simp only [processRows]
    cases hr : rowTag row with
    | none => exact ih tags h hinv
    | some tid =>
      refine ih _ _ ?_
      intro t ht
      rcases List.mem_append.mp ht with h1 | h2
      · obtain ⟨ent, hm, hg⟩ := hinv t h1
        exact ⟨ent, entMem_histAdd_mono _ _ _ _ _ hm, hg⟩
      · have ht2 : t = tid := by simpa using h2
        subst ht2
        exact ⟨⟨fm, dt, sq, fn⟩, entMem_histAdd _ _ _, rfl, rfl, rfl⟩

theorem stInv_append (st : ParseState) (hinv : stInv st) (fm : String)
    (dtv : DateTime) (sq fn ts : String) (rows : List String)
    (w : List String) (d : Option DateTime) :
    stInv { all_data := st.all_data ++
              [⟨fn, fm, dtv, sq,
                (processRows fm dtv sq fn rows [] st.tag_histories).1.length,
                (processRows fm dtv sq fn rows [] st.tag_histories).1, ts⟩]
            tag_histories := (processRows fm dtv sq fn rows [] st.tag_histories).2
            warnings := w
            lastDt := d } := by
  intro e he t ht
  rcases List.mem_append.mp he with h1 | h2
  · obtain ⟨ent, hm, hg⟩ := hinv e h1 t ht
    exact ⟨ent, processRows_mono fm dtv sq fn rows [] st.tag_histories t ent hm, hg⟩
  · have he2 : e = ⟨fn, fm, dtv, sq,
        (processRows fm dtv sq fn rows [] st.tag_histories).1.length,
        (processRows fm dtv sq fn rows [] st.tag_histories).1, ts⟩ := by
      simpa using h2
    subst he2
    obtain ⟨ent, hm, hg1, hg2, hg3⟩ :=
      processRows_spec fm dtv sq fn rows [] st.tag_histories
        (by intro t2 ht2; cases ht2) t ht
    exact ⟨ent, hm, hg1, hg2, hg3⟩

theorem processFile_inv (st : ParseState) (f : InputFile) (hinv : stInv st) :
    stInv (processFile st f) := by
  simp only [processFile]
  split
  · exact hinv
  · split
    · exact hinv
    · split
      · exact stInv_append st hinv _ _ _ _ _ _ _ _
      · split
        · exact stInv_append st hinv _ _ _ _ _ _ _ _
        · intro e he t ht
          obtain ⟨ent, hm, hg⟩ := hinv e he t ht
          refine ⟨ent, ?_, hg⟩
          cases hfr : firstRowTag ((strSplit (strTrim f.content) '\n').drop 1) with
          | some tid => exact entMem_histEnsure_mono _ _ _ _ hm
          | none => exact hm

theorem foldl_inv (files : List InputFile) :
    ∀ st : ParseState, stInv st → stInv (files.foldl processFile st) := by
  induction files with
  | nil => intro st h; exact h
  | cons f rest ih => intro st h; exact ih _ (processFile_inv _ _ h)

/-! ## Claim-level theorems -/

/-- C8: parsing the single file whose whole content is the one line
`20250218080534,0001,6C,02,A0250212154136343032353031303235` yields exactly
one event with sequence state `02` and tag count 0: the line is consumed as
the header only (fields 0 and 3), its fifth field is not read as a tag, and
there are no data rows. -/
theorem C8_single_line_header_only :
    parse_uploaded_files
      [⟨"file1.csv",
        "20250218080534,0001,6C,02,A0250212154136343032353031303235"⟩]
      = ([⟨"file1.csv", "2025/02/18 08:05:34", ⟨2025, 2, 18, 8, 5, 34⟩, "02",
            0, [], "20250218080534"⟩], [], []) := by decide

/-- C1 (code bug): on an unparsable header timestamp the source never
assigns `dt`, so building the event raises `UnboundLocalError`.  For a first
file this is caught by the blanket `except`: the file is skipped with a
warning and *no* event is produced — contradicting the claim that an event
with an absent time value is still produced.  When an earlier file did parse,
an event *is* produced but carries that earlier file's stale `datetime`, not
an absent one. -/
theorem C1_unparseable_timestamp_bug :
    parse_uploaded_files [⟨"f1.csv", "notadate,a,b,02"⟩] = ([], [], ["f1.csv"])
    ∧ ((parse_uploaded_files
          [⟨"a.csv", "20250218080000,x,y,00"⟩,
           ⟨"b.csv", "notadate,a,b,02"⟩]).1.getD 1 default).datetime
        = ⟨2025, 2, 18, 8, 0, 0⟩ :=
  ⟨by decide, by decide⟩

/-- C3 (counterexample): a non-blank file whose first line has fewer than 4
comma-separated fields is skipped by the bare `continue` of line 41 with *no*
warning: here the batch containing the malformed `a_bad.csv` ends with an
empty warnings list, refuting the claim that a warning naming the file is
surfaced. -/
theorem C3_counterexample :
    parse_uploaded_files
      [⟨"a_bad.csv", "x,y"⟩, ⟨"b_good.csv", "20250218080000,a,b,00"⟩]
      = ([⟨"b_good.csv", "2025/02/18 08:00:00", ⟨2025, 2, 18, 8, 0, 0⟩, "00",
            0, [], "20250218080000"⟩], [], []) := by decide

/-- C3 (amended): a non-blank file whose first line has fewer than 4
comma-separated fields is skipped *silently* — no event, no warning, no state
change — and processing of the remaining files continues exactly as if the
file had not been supplied. -/
theorem C3_malformed_header_skipped_silently (st : ParseState) (f : InputFile)
    (h1 : strTrim f.content ≠ "")
    (h2 : (strSplit ((strSplit (strTrim f.content) '\n').headD "") ',').length < 4) :
    processFile st f = st ∧
      ∀ rest : List InputFile,
        rest.foldl processFile (processFile st f) = rest.foldl processFile st := by
  have heq : processFile st f = st := by
    simp only [processFile]
    rw [if_neg h1, if_pos h2]
  exact ⟨heq, fun rest => by rw [heq]⟩

theorem C3_malformed_header_skipped_silently_witness :
    (strTrim "x,y" ≠ "" ∧
      (strSplit ((strSplit (strTrim "x,y") '\n').headD "") ',').length < 4) ∧
    processFile ⟨[], [], [], none⟩ ⟨"bad.csv", "x,y"⟩ = ⟨[], [], [], none⟩ :=
  ⟨⟨by decide, by decide⟩,
   (C3_malformed_header_skipped_silently ⟨[], [], [], none⟩ ⟨"bad.csv", "x,y"⟩
      (by decide) (by decide)).1⟩

/-- C7 (counterexample): with two distinct files sharing the filename
`a.csv`, the stable sort of line 27 keeps them in supplied order, so
permuting the input changes the event list: the parse result is not invariant
under permutation. -/
theorem C7_counterexample :
    parse_uploaded_files
      [⟨"a.csv", "20250218080000,x,y,00"⟩, ⟨"a.csv", "20250218080100,x,y,01"⟩]
      ≠ parse_uploaded_files
      [⟨"a.csv", "20250218080100,x,y,01"⟩, ⟨"a.csv", "20250218080000,x,y,00"⟩] := by
  decide

/-- C7 (amended): files are processed in ascending lexicographic filename
order, and whenever the supplied filenames are pairwise distinct the result
of `parse_uploaded_files` is invariant under any permutation of the input
list. -/
theorem C7_permutation_invariant (l₁ l₂ : List InputFile) (hp : l₁.Perm l₂)
    (hn : (l₁.map InputFile.name).Nodup) :
    parse_uploaded_files l₁ = parse_uploaded_files l₂ := by
  simp only [parse_uploaded_files]
  rw [sortFilesByName_eq_of_perm l₁ l₂ hp hn]

theorem C7_permutation_invariant_witness :
    (([⟨"a.csv", "c1"⟩, ⟨"b.csv", "c2"⟩] : List InputFile).Perm
        [⟨"b.csv", "c2"⟩, ⟨"a.csv", "c1"⟩] ∧
      (([⟨"a.csv", "c1"⟩, ⟨"b.csv", "c2"⟩] : List InputFile).map
          InputFile.name).Nodup) ∧
    parse_uploaded_files [⟨"a.csv", "c1"⟩, ⟨"b.csv", "c2"⟩]
      = parse_uploaded_files [⟨"b.csv", "c2"⟩, ⟨"a.csv", "c1"⟩] :=
  ⟨⟨List.Perm.swap _ _ _, by decide⟩,
   C7_permutation_invariant _ _ (List.Perm.swap _ _ _) (by decide)⟩

/-- C5: in the list the statistics are computed over (the datetime-sorted
frame), only indices `i < len - 1` contribute, each adding the gap to the
next event to the state of `events[i]`; in particular the final event
contributes zero duration to every state's total. -/
theorem C5_last_event_excluded (data : List Event) (sq : String)
    (hs : sq ∈ seqStates) :
    (getStat (calculate_sequence_stats data) sq).total_duration
      = ∑ i ∈ Finset.range ((sortByDatetime data).length - 1),
          ite (((sortByDatetime data).getD i default).sequence = sq)
            (durationMinutes ((sortByDatetime data).getD i default).datetime
              ((sortByDatetime data).getD (i + 1) default).datetime) 0 := by
  by_cases hne : data = []
  · subst hne
    simp [calculate_sequence_stats, getStat, sortByDatetime, List.insertionSort]
  · rw [getStat_calc data hne sq hs]
    exact totalDurationFor_eq_sum _ _

theorem C5_last_event_excluded_witness :
    ("00" ∈ seqStates) ∧
    (getStat (calculate_sequence_stats dataC5) "00").total_duration
      = ∑ i ∈ Finset.range ((sortByDatetime dataC5).length - 1),
          ite (((sortByDatetime dataC5).getD i default).sequence = "00")
            (durationMinutes ((sortByDatetime dataC5).getD i default).datetime
              ((sortByDatetime dataC5).getD (i + 1) default).datetime) 0 :=
  ⟨by decide, C5_last_event_excluded dataC5 "00" (by decide)⟩

/-- C9: because `calculate_sequence_stats` sorts the events by parsed
datetime before computing adjacent deltas, every state's total duration is a
sum of non-negative gaps, hence non-negative for every input list. -/
theorem C9_total_duration_nonneg (data : List Event) (sq : String) :
    0 ≤ (getStat (calculate_sequence_stats data) sq).total_duration := by
  by_cases hs : sq ∈ seqStates
  · by_cases hne : data = []
    · subst hne
      simp [calculate_sequence_stats, getStat]
    · rw [getStat_calc data hne sq hs]
      show 0 ≤ totalDurationFor (sortByDatetime data) sq
      rw [totalDurationFor_eq_sum]
      apply Finset.sum_nonneg
      intro i hi
      by_cases hA : ((sortByDatetime data).getD i default).sequence = sq
      · rw [if_pos hA]
        have hi1 : i + 1 < (sortByDatetime data).length := by
          have := Finset.mem_range.mp hi
          omega
        have hadj := sorted_adjacent (sortByDatetime data)
          (sorted_sortByDatetime data) i hi1
        unfold durationMinutes
        apply div_nonneg _ (by norm_num)
        rw [sub_nonneg]
        exact_mod_cast hadj
      · rw [if_neg hA]
  · rw [getStat_calc_notmem data sq hs]

/-- C2 (counterexample): for the two files of `filesC2` the event list is in
filename order `["01", "00"]` with inverted timestamps, yet the code assigns
state `00` a total duration of 1 minute — the value obtained after re-sorting
by parsed datetime — while deriving durations in the preserved filename order
(the same loop run on the unsorted list) would assign it 0. -/
theorem C2_counterexample :
    (parse_uploaded_files filesC2).1.map Event.sequence = ["01", "00"] ∧
    (getStat (calculate_sequence_stats (parse_uploaded_files filesC2).1)
        "00").total_duration = 1 ∧
    totalDurationFor (parse_uploaded_files filesC2).1 "00" = 0 := by
  have hev : (parse_uploaded_files filesC2).1 = [evC2a, evC2b] := by decide
  refine ⟨by decide, ?_, ?_⟩
  · rw [hev, getStat_calc [evC2a, evC2b] (by decide) "00" (by decide)]
    show totalDurationFor (sortByDatetime [evC2a, evC2b]) "00" = 1
    have hs : sortByDatetime [evC2a, evC2b] = [evC2b, evC2a] := by decide
    rw [hs, totalDurationFor_eq_sum]
    rw [show ([evC2b, evC2a] : List Event).length - 1 = 1 from rfl,
      Finset.sum_range_one]
    rw [if_pos (by decide)]
    show durationMinutes evC2b.datetime evC2a.datetime = 1
    have h60 : toSeconds evC2a.datetime = toSeconds evC2b.datetime + 60 := by
      decide
    unfold durationMinutes
    rw [h60]
    push_cast
    ring
  · rw [hev, totalDurationFor_eq_sum]
    rw [show ([evC2a, evC2b] : List Event).length - 1 = 1 from rfl,
      Finset.sum_range_one]
    rw [if_neg (by decide)]

/-- C2 (amended): the parse pre-sorts files lexicographically by name, but
before any duration is derived `calculate_sequence_stats` re-sorts the events
by parsed datetime: every `StateStats` field is computed over the
datetime-sorted permutation of the input, not over the order in which the
events were handed over. -/
theorem C2_resorted_before_durations (files : List InputFile)
    (data : List Event) (h1 : data ≠ []) :
    List.Sorted nameLe (sortFilesByName files) ∧
    (sortByDatetime data).Perm data ∧
    List.Sorted dtLe (sortByDatetime data) ∧
    calculate_sequence_stats data
      = seqStates.map (fun sq =>
          (sq, ⟨countFor (sortByDatetime data) sq,
                percentageFor (sortByDatetime data) sq,
                totalDurationFor (sortByDatetime data) sq,
                avgDurationFor (sortByDatetime data) sq,
                timePercentageFor (sortByDatetime data) sq⟩)) := by
  refine ⟨List.sorted_insertionSort nameLe files, perm_sortByDatetime data,
    sorted_sortByDatetime data, ?_⟩
  rw [calculate_sequence_stats, if_neg h1]

theorem C2_resorted_before_durations_witness :
    (([evC2a] : List Event) ≠ []) ∧
    (List.Sorted nameLe (sortFilesByName filesC2) ∧
      (sortByDatetime [evC2a]).Perm [evC2a] ∧
      List.Sorted dtLe (sortByDatetime [evC2a]) ∧
      calculate_sequence_stats [evC2a]
        = seqStates.map (fun sq =>
            (sq, ⟨countFor (sortByDatetime [evC2a]) sq,
                  percentageFor (sortByDatetime [evC2a]) sq,
                  totalDurationFor (sortByDatetime [evC2a]) sq,
                  avgDurationFor (sortByDatetime [evC2a]) sq,
                  timePercentageFor (sortByDatetime [evC2a]) sq⟩))) :=
  ⟨by decide, C2_resorted_before_durations filesC2 [evC2a] (by decide)⟩

/-- C4 (counterexample): for the non-empty event list `[evC4]`, whose only
event carries the out-of-domain sequence state `"99"`, all five per-state
percentages are 0, so their sum is 0, not 100. -/
theorem C4_counterexample :
    (([evC4] : List Event) ≠ []) ∧
    (seqStates.map (fun sq =>
        (getStat (calculate_sequence_stats [evC4]) sq).percentage)).sum
      ≠ 100 := by
  have hall : ∀ sq ∈ seqStates,
      (getStat (calculate_sequence_stats [evC4]) sq).percentage = 0 := by
    intro sq hsq
    rw [getStat_calc [evC4] (by decide) sq hsq]
    show percentageFor (sortByDatetime [evC4]) sq = 0
    have hc : countFor (sortByDatetime [evC4]) sq = 0 := by
      simp only [seqStates] at hsq
      fin_cases hsq <;> decide
    rw [percentageFor, hc]
    simp
  refine ⟨by decide, ?_⟩
  simp only [seqStates, List.map_cons, List.map_nil, List.sum_cons,
    List.sum_nil]
  rw [hall "00" (by decide), hall "01" (by decide), hall "02" (by decide),
    hall "03" (by decide), hall "04" (by decide)]
  norm_num

/-- C4 (amended): whenever the event list is non-empty and every event's
sequence state lies in the fixed state set, the five `percentageOfEvents`
values sum to exactly 100. -/
theorem C4_percentage_closure (data : List Event) (h1 : data ≠ [])
    (h2 : ∀ e ∈ data, e.sequence ∈ seqStates) :
    (seqStates.map (fun sq =>
        (getStat (calculate_sequence_stats data) sq).percentage)).sum
      = 100 := by
  have hdf : ∀ e ∈ sortByDatetime data, e.sequence ∈ seqStates :=
    fun e he => h2 e ((perm_sortByDatetime data).mem_iff.mp he)
  have hsum := sum_countFor_nat (sortByDatetime data) hdf
  have hlen : (sortByDatetime data).length = data.length :=
    (perm_sortByDatetime data).length_eq
  have hpos : 0 < (sortByDatetime data).length := by
    rw [hlen]
    exact List.length_pos.mpr h1
  simp only [seqStates, List.map_cons, List.map_nil, List.sum_cons,
    List.sum_nil] at hsum ⊢
  rw [getStat_calc data h1 "00" (by decide),
    getStat_calc data h1 "01" (by decide),
    getStat_calc data h1 "02" (by decide),
    getStat_calc data h1 "03" (by decide),
    getStat_calc data h1 "04" (by decide)]
  show percentageFor (sortByDatetime data) "00"
      + (percentageFor (sortByDatetime data) "01"
      + (percentageFor (sortByDatetime data) "02"
      + (percentageFor (sortByDatetime data) "03"
      + (percentageFor (sortByDatetime data) "04" + 0)))) = 100
  simp only [percentageFor, if_pos hpos]
  have hsum2 : countFor (sortByDatetime data) "00"
      + countFor (sortByDatetime data) "01"
      + countFor (sortByDatetime data) "02"
      + countFor (sortByDatetime data) "03"
      + countFor (sortByDatetime data) "04"
      = (sortByDatetime data).length := by
    omega
  have hn0 : ((sortByDatetime data).length : ℚ) ≠ 0 := by
    exact_mod_cast Nat.pos_iff_ne_zero.mp hpos
  have hcast : (countFor (sortByDatetime data) "00" : ℚ)
      + (countFor (sortByDatetime data) "01" : ℚ)
      + (countFor (sortByDatetime data) "02" : ℚ)
      + (countFor (sortByDatetime data) "03" : ℚ)
      + (countFor (sortByDatetime data) "04" : ℚ)
      = ((sortByDatetime data).length : ℚ) := by
    exact_mod_cast hsum2
  field_simp
  linear_combination (100 : ℚ) * hcast

theorem C4_percentage_closure_witness :
    (([evC4w] : List Event) ≠ []
      ∧ ∀ e ∈ ([evC4w] : List Event), e.sequence ∈ seqStates) ∧
    (seqStates.map (fun sq =>
        (getStat (calculate_sequence_stats [evC4w]) sq).percentage)).sum
      = 100 :=
  ⟨⟨by decide, by decide⟩,
   C4_percentage_closure [evC4w] (by decide) (by decide)⟩

theorem sorted_get_mono (df : List Event) (hs : List.Sorted dtLe df)
    (i j : Fin df.length) (hij : i.val ≤ j.val) :
    toSeconds (df.get i).datetime ≤ toSeconds (df.get j).datetime := by
  rcases Nat.lt_or_ge i.val j.val with hlt | hge
  · exact List.pairwise_iff_get.mp hs i j hlt
  · have hij2 : i = j := Fin.ext (Nat.le_antisymm hij hge)
    subst hij2
    exact Nat.le_refl _

/-- When every row's state is in the fixed state set, each index below
`len - 1` lands in exactly one state's bucket, so the five totals sum to a
telescoping series: last parsed time minus first parsed time, in minutes. -/
theorem totals_telescope (df : List Event)
    (hall : ∀ e ∈ df, e.sequence ∈ seqStates) :
    (seqStates.map (fun sq => totalDurationFor df sq)).sum
      = ((toSeconds (df.getD (df.length - 1) default).datetime : ℚ)
          - (toSeconds (df.getD 0 default).datetime : ℚ)) / 60 := by
  have hmap : (fun sq => totalDurationFor df sq)
      = (fun sq => ∑ i ∈ Finset.range (df.length - 1),
          ite ((df.getD i default).sequence = sq)
            (durationMinutes (df.getD i default).datetime
              (df.getD (i + 1) default).datetime) 0) :=
    funext (fun sq => totalDurationFor_eq_sum df sq)
  rw [hmap, list_map_sum_comm]
  have hstep : ∀ i ∈ Finset.range (df.length - 1),
      (seqStates.map (fun sq => ite ((df.getD i default).sequence = sq)
        (durationMinutes (df.getD i default).datetime
          (df.getD (i + 1) default).datetime) 0)).sum
      = ((toSeconds (df.getD (i + 1) default).datetime : ℚ)
          - (toSeconds (df.getD i default).datetime : ℚ)) / 60 := by
    intro i hi
    have himem : df.getD i default ∈ df := by
      rw [List.getD_eq_getElem df default
        (by have := Finset.mem_range.mp hi; omega)]
      exact List.getElem_mem _
    rw [sum_map_ite_eq seqStates seqStates_nodup _ (hall _ himem)]
    rfl
  rw [Finset.sum_congr rfl hstep, ← Finset.sum_div,
    Finset.sum_range_sub
      (fun i => (toSeconds (df.getD i default).datetime : ℚ))
      (df.length - 1)]

/-- C10: for a non-empty event list whose states all lie in the fixed state
set, the five total durations sum to the span from the earliest to the latest
parsed timestamp, in minutes. -/
theorem C10_totals_telescope (data : List Event) (h1 : data ≠ [])
    (h2 : ∀ e ∈ data, e.sequence ∈ seqStates) :
    ∃ lo hi : Nat,
      (∀ e ∈ data, lo ≤ toSeconds e.datetime ∧ toSeconds e.datetime ≤ hi) ∧
      (∃ e ∈ data, toSeconds e.datetime = lo) ∧
      (∃ e ∈ data, toSeconds e.datetime = hi) ∧
      (seqStates.map (fun sq =>
          (getStat (calculate_sequence_stats data) sq).total_duration)).sum
        = ((hi : ℚ) - (lo : ℚ)) / 60 := by
  have hperm := perm_sortByDatetime data
  have hsorted := sorted_sortByDatetime data
  have hpos : 0 < (sortByDatetime data).length := by
    rw [hperm.length_eq]
    exact List.length_pos.mpr h1
  have hlast : (sortByDatetime data).length - 1 < (sortByDatetime data).length := by
    omega
  refine ⟨toSeconds ((sortByDatetime data).getD 0 default).datetime,
    toSeconds ((sortByDatetime data).getD ((sortByDatetime data).length - 1)
      default).datetime, ?_, ?_, ?_, ?_⟩
  · intro e he
    obtain ⟨j, hj⟩ := List.mem_iff_get.mp (hperm.mem_iff.mpr he)
    constructor
    · have hmono := sorted_get_mono (sortByDatetime data) hsorted ⟨0, hpos⟩ j
        (Nat.zero_le _)
      rw [List.getD_eq_getElem (sortByDatetime data) default hpos, ← hj]
      simpa [List.get_eq_getElem] using hmono
    · have hj2 : j.val ≤ (sortByDatetime data).length - 1 := by
        have := j.isLt
        omega
      have hmono := sorted_get_mono (sortByDatetime data) hsorted j
        ⟨(sortByDatetime data).length - 1, hlast⟩ hj2
      rw [List.getD_eq_getElem (sortByDatetime data) default hlast, ← hj]
      simpa [List.get_eq_getElem] using hmono
  · refine ⟨(sortByDatetime data).getD 0 default, ?_, rfl⟩
    rw [List.getD_eq_getElem (sortByDatetime data) default hpos]
    exact hperm.mem_iff.mp (List.getElem_mem _)
  · refine ⟨(sortByDatetime data).getD ((sortByDatetime data).length - 1)
      default, ?_, rfl⟩
    rw [List.getD_eq_getElem (sortByDatetime data) default hlast]
    exact hperm.mem_iff.mp (List.getElem_mem _)
  · have hdfall : ∀ e ∈ sortByDatetime data, e.sequence ∈ seqStates :=
      fun e he => h2 e (hperm.mem_iff.mp he)
    have hmap2 : (seqStates.map (fun sq =>
        (getStat (calculate_sequence_stats data) sq).total_duration))
        = seqStates.map (fun sq => totalDurationFor (sortByDatetime data) sq) := by
      simp only [seqStates, List.map_cons, List.map_nil]
      rw [getStat_calc data h1 "00" (by decide),
        getStat_calc data h1 "01" (by decide),
        getStat_calc data h1 "02" (by decide),
        getStat_calc data h1 "03" (by decide),
        getStat_calc data h1 "04" (by decide)]
    rw [hmap2, totals_telescope (sortByDatetime data) hdfall]

theorem C10_totals_telescope_witness :
    ((dataC10 ≠ []) ∧ ∀ e ∈ dataC10, e.sequence ∈ seqStates) ∧
    (∃ lo hi : Nat,
      (∀ e ∈ dataC10, lo ≤ toSeconds e.datetime ∧ toSeconds e.datetime ≤ hi) ∧
      (∃ e ∈ dataC10, toSeconds e.datetime = lo) ∧
      (∃ e ∈ dataC10, toSeconds e.datetime = hi) ∧
      (seqStates.map (fun sq =>
          (getStat (calculate_sequence_stats dataC10) sq).total_duration)).sum
        = ((hi : ℚ) - (lo : ℚ)) / 60) :=
  ⟨⟨by decide, by decide⟩,
   C10_totals_telescope dataC10 (by decide) (by decide)⟩

/-- C6: every tag id of every produced event has a non-empty history list
containing an entry whose (timestamp, sequence state, source filename)
matches the event. -/
theorem C6_tag_fidelity (files : List InputFile) (e : Event)
    (he : e ∈ (parse_uploaded_files files).1) (t : String)
    (ht : t ∈ e.tag_ids) :
    ∃ l, histLookup (parse_uploaded_files files).2.1 t = some l ∧ l ≠ [] ∧
      ∃ ent ∈ l, ent.timestamp = e.timestamp ∧ ent.sequence = e.sequence ∧
        ent.filename = e.filename := by
  have base : stInv ⟨[], [], [], none⟩ := by
    intro e2 he2
    cases he2
  have hall := foldl_inv (sortFilesByName files) ⟨[], [], [], none⟩ base
  obtain ⟨ent, hm, hg1, hg2, hg3⟩ := hall e he t ht
  unfold entMem at hm
  cases hl : histLookup
      ((sortFilesByName files).foldl processFile
        ⟨[], [], [], none⟩).tag_histories t with
  | none =>
    rw [hl] at hm
    simp at hm
  | some l =>
    rw [hl] at hm
    refine ⟨l, hl, ?_, ent, ?_, hg1, hg2, hg3⟩
    · intro hnil
      rw [hnil] at hm
      simp at hm
    · simpa using hm

theorem C6_tag_fidelity_witness :
    (evC6 ∈ (parse_uploaded_files filesC6).1 ∧ "TAGA" ∈ evC6.tag_ids) ∧
    (∃ l, histLookup (parse_uploaded_files filesC6).2.1 "TAGA" = some l ∧
      l ≠ [] ∧
      ∃ ent ∈ l, ent.timestamp = evC6.timestamp ∧
        ent.sequence = evC6.sequence ∧ ent.filename = evC6.filename) :=
  ⟨⟨by decide, by decide⟩,
   C6_tag_fidelity filesC6 evC6 (by decide) "TAGA" (by decide)⟩
